import Mathlib

/-!
Shallow embedding of the ChessCoach evaluation-to-classification pipeline
and its analysis job queue, translated from the TypeScript sources:
move-classifier.ts, position-utils.ts, the evaluation utilities,
game-analyzer.ts and queue.service.ts.  Numbers that the source treats as
JS numbers are modelled as exact rationals (all the decisions are order
comparisons on decimal constants); the real-valued logistic win-probability
curve is modelled over the reals.
-/

namespace ChessCoach

/-- Game phase, from determineGamePhase in position-utils.ts. -/
inductive GamePhase
  | opening
  | middlegame
  | endgame
deriving DecidableEq, Repr

/-- The 11 move classification tags of the pipeline. -/
inductive MoveClassification
  | brilliant
  | great
  | best
  | excellent
  | good
  | book
  | inaccuracy
  | mistake
  | miss
  | blunder
  | missed_mate
deriving DecidableEq, Repr

/-- CLASSIFICATION_THRESHOLDS.BLUNDER_EPL from thresholds.ts. -/
def BLUNDER_EPL : ℚ := 0.20

/-- CLASSIFICATION_THRESHOLDS.MISTAKE_EPL from thresholds.ts. -/
def MISTAKE_EPL : ℚ := 0.10

/-- CLASSIFICATION_THRESHOLDS.INACCURACY_EPL from thresholds.ts. -/
def INACCURACY_EPL : ℚ := 0.05

/-- CLASSIFICATION_THRESHOLDS.BEST from thresholds.ts. -/
def BEST_EPL : ℚ := 0.001

/-- CLASSIFICATION_THRESHOLDS.EXCELLENT from thresholds.ts. -/
def EXCELLENT_EPL : ℚ := 0.02

/-- CLASSIFICATION_THRESHOLDS.GOOD from thresholds.ts. -/
def GOOD_EPL : ℚ := 0.05

/-- CLASSIFICATION_THRESHOLDS.DECISIVE_WIN_PROB from thresholds.ts. -/
def DECISIVE_WIN_PROB : ℚ := 0.80

/-- CLASSIFICATION_THRESHOLDS.DECISIVE_LOSE_PROB from thresholds.ts. -/
def DECISIVE_LOSE_PROB : ℚ := 0.20

/-- isPositionCompetitive from position-utils.ts: 0.20 <= winChance <= 0.80. -/
def isPositionCompetitive (winChance : ℚ) : Prop :=
  0.20 ≤ winChance ∧ winChance ≤ 0.80

instance (w : ℚ) : Decidable (isPositionCompetitive w) :=
  inferInstanceAs (Decidable (_ ∧ _))

/-- isPositionWinning from position-utils.ts: winChance > 0.75. -/
def isPositionWinning (winChance : ℚ) : Prop :=
  winChance > 0.75

instance (w : ℚ) : Decidable (isPositionWinning w) :=
  inferInstanceAs (Decidable (_ < _))

/-- isPositionLosing from position-utils.ts: winChance < 0.25. -/
def isPositionLosing (winChance : ℚ) : Prop :=
  winChance < 0.25

instance (w : ℚ) : Decidable (isPositionLosing w) :=
  inferInstanceAs (Decidable (_ < _))

/-- ClassifyMoveParams from move-classifier.ts.  Optional mate distances are
Option Int; undefined is none. -/
structure ClassifyMoveParams where
  expectedPointsLost : ℚ
  winChanceBefore : ℚ
  winChanceAfter : ℚ
  isSacrifice : Bool
  isBestMove : Bool
  gamePhase : GamePhase
  mateInBefore : Option ℤ
  mateInAfter : Option ℤ
  allAlternativesWorse : Bool
  missedOpportunity : Bool
deriving DecidableEq, Repr

/-- classifyMove from move-classifier.ts, translated branch by branch.  The
brilliant block falls through (to the great check and below) when the
sacrifice conditions hold but the phase is endgame and the move was not the
only good one, exactly as the nested early returns in the source do. -/
def classifyMove (p : ClassifyMoveParams) : MoveClassification :=
  if p.mateInBefore ≠ none ∧ p.mateInAfter = none then
    .missed_mate
  else if p.missedOpportunity = true then
    .miss
  else if p.isSacrifice = true ∧ p.expectedPointsLost ≤ EXCELLENT_EPL ∧
      isPositionCompetitive p.winChanceBefore ∧
      ¬ isPositionWinning p.winChanceBefore ∧
      (p.gamePhase ≠ .endgame ∨ p.allAlternativesWorse = true) then
    .brilliant
  else if p.expectedPointsLost ≤ EXCELLENT_EPL ∧ p.allAlternativesWorse = true ∧
      ((isPositionLosing p.winChanceBefore ∧ isPositionCompetitive p.winChanceAfter) ∨
       (isPositionCompetitive p.winChanceBefore ∧ isPositionWinning p.winChanceAfter)) then
    .great
  else
    let wasDecisive : Prop := p.winChanceBefore ≥ DECISIVE_WIN_PROB ∨
                              p.winChanceBefore ≤ DECISIVE_LOSE_PROB
    let effectiveEPL : ℚ := if wasDecisive then 0 else p.expectedPointsLost
    if effectiveEPL ≥ BLUNDER_EPL then
      .blunder
    else if effectiveEPL ≥ MISTAKE_EPL then
      .mistake
    else if effectiveEPL ≥ INACCURACY_EPL then
      .inaccuracy
    else if p.isBestMove = true ∧ p.expectedPointsLost < BEST_EPL then
      .best
    else if p.expectedPointsLost ≤ EXCELLENT_EPL then
      .excellent
    else if p.expectedPointsLost ≤ GOOD_EPL then
      .good
    else
      .inaccuracy

/-- calculateExpectedPointsLost from the evaluation utilities:
max(0, winChanceBefore - winChanceAfter). -/
def calculateExpectedPointsLost (winChanceBefore winChanceAfter : ℚ) : ℚ :=
  max 0 (winChanceBefore - winChanceAfter)

/-- adjustForMateDistance from the evaluation utilities, translated branch by
branch over optional signed mate distances. -/
def adjustForMateDistance (expectedPointsLost : ℚ)
    (mateInBefore mateInAfter : Option ℤ) : ℚ :=
  if mateInBefore ≠ none ∧ mateInAfter = none then
    max expectedPointsLost 0.5
  else if mateInBefore = none ∧ mateInAfter ≠ none then
    0
  else
    match mateInBefore, mateInAfter with
    | some b, some a =>
      if b > 0 ∧ a < 0 then
        1
      else if b > 0 ∧ a > 0 ∧ a > b then
        min (expectedPointsLost + 0.05) 0.1
      else
        expectedPointsLost
    | _, _ => expectedPointsLost

/-- PIECE_VALUES from thresholds.ts, as a lookup over the lowercased FEN
character; characters that are not piece letters are not in the table. -/
def pieceValueLookup (c : Char) : Option ℕ :=
  if c = 'p' then some 1
  else if c = 'n' then some 3
  else if c = 'b' then some 3
  else if c = 'r' then some 5
  else if c = 'q' then some 9
  else if c = 'k' then some 0
  else none

/-- calculateMaterial from position-utils.ts: walk the piece-placement field
of the FEN (everything before the first space), and for each character whose
lowercasing is in PIECE_VALUES and whose case matches the requested color,
add its value.  The color is modelled as a Bool (true = white). -/
def calculateMaterial (fen : String) (white : Bool) : ℕ :=
  let position := fen.takeWhile (· ≠ ' ')
  position.toList.foldl
    (fun material char =>
      let isWhite := char.toUpper = char
      let piece := char.toLower
      match pieceValueLookup piece with
      | some v =>
        if white = isWhite then material + v else material
      | none => material)
    0

/-- detectSacrifice from position-utils.ts: materialLost is the signed drop
in the mover's material, and the move is a sacrifice iff it is at least 2. -/
def detectSacrifice (fenBefore fenAfter : String) (playerWhite : Bool) :
    Bool × ℤ :=
  let materialBefore : ℤ := calculateMaterial fenBefore playerWhite
  let materialAfter : ℤ := calculateMaterial fenAfter playerWhite
  let materialLost := materialBefore - materialAfter
  (decide (materialLost ≥ 2), materialLost)

/-- determineGamePhase from position-utils.ts. -/
def determineGamePhase (moveNumber : ℕ) (fen : String) : GamePhase :=
  let totalMaterial := calculateMaterial fen true + calculateMaterial fen false
  if moveNumber ≤ 12 then .opening
  else if totalMaterial ≤ 13 then .endgame
  else .middlegame

/-- LICHESS_WIN_RATE_COEFFICIENT from thresholds.ts. -/
noncomputable def LICHESS_WIN_RATE_COEFFICIENT : ℝ := 0.00368208

/-- centipawnsToWinPercent from the evaluation utilities: mate sentinels map
to 100 / 0, otherwise the Lichess logistic curve
50 + 50 * (2 / (1 + exp(-k * cp)) - 1). -/
noncomputable def centipawnsToWinPercent (centipawns : ℝ) : ℝ :=
  if centipawns > 10000 then 100
  else if centipawns < -10000 then 0
  else 50 + 50 * (2 / (1 + Real.exp (-LICHESS_WIN_RATE_COEFFICIENT * centipawns)) - 1)

/-- centipawnsToWinProbability from the evaluation utilities:
centipawnsToWinPercent scaled to 0..1. -/
noncomputable def centipawnsToWinProbability (centipawns : ℝ) : ℝ :=
  centipawnsToWinPercent centipawns / 100

/-- DepthPreset from stockfish.service.ts. -/
inductive DepthPreset
  | fast
  | balanced
  | thorough
deriving DecidableEq, Repr

/-- JobStatus from queue.service.ts. -/
inductive JobStatus
  | queued
  | processing
  | completed
  | failed
deriving DecidableEq, Repr

/-- AnalysisJob from queue.service.ts.  ObjectIds are modelled as strings and
Dates as naturals (only ordering and presence matter to the queue logic). -/
structure AnalysisJob where
  gameId : String
  depth : DepthPreset
  status : JobStatus
  createdAt : ℕ
  startedAt : Option ℕ
  completedAt : Option ℕ
  error : Option String
  resultId : Option String
deriving DecidableEq, Repr

/-- The AnalysisQueue state: the job table (a JS Map in insertion order with
unique keys) and the isProcessing flag. -/
structure QueueState where
  jobs : List AnalysisJob
  isProcessing : Bool
deriving DecidableEq, Repr

/-- Map.get by gameId over the job table. -/
def queueGet (jobs : List AnalysisJob) (gameId : String) : Option AnalysisJob :=
  jobs.find? (fun j => j.gameId = gameId)

/-- Map.set by gameId: replace an existing entry in place, else append
(JS Map keeps insertion order and unique keys). -/
def queueSet (jobs : List AnalysisJob) (job : AnalysisJob) : List AnalysisJob :=
  if jobs.any (fun j => j.gameId = job.gameId) then
    jobs.map (fun j => if j.gameId = job.gameId then job else j)
  else
    jobs ++ [job]

/-- addJob from queue.service.ts: return any existing job for the gameId
unchanged, otherwise create a job in queued state with the given creation
time and store it.  The asynchronous processQueue wake-up is modelled
separately by processQueue below. -/
def addJob (st : QueueState) (gameId : String) (depth : DepthPreset)
    (now : ℕ) : AnalysisJob × QueueState :=
  match queueGet st.jobs gameId with
  | some existingJob => (existingJob, st)
  | none =>
    let job : AnalysisJob :=
      { gameId := gameId, depth := depth, status := .queued, createdAt := now,
        startedAt := none, completedAt := none, error := none, resultId := none }
    (job, { st with jobs := queueSet st.jobs job })

/-- Stable insertion by createdAt (the JS sort comparator
a.createdAt - b.createdAt): the new element goes after every element with a
strictly smaller key and before the first with a greater-or-equal key it does
not pass; walking while the head's key is <= keeps equal keys in original
order, matching the stable Array.prototype.sort. -/
def insertByCreated (j : AnalysisJob) : List AnalysisJob → List AnalysisJob
  | [] => [j]
  | x :: xs =>
    if x.createdAt ≤ j.createdAt then x :: insertByCreated j xs
    else j :: x :: xs

/-- Sort the job list by ascending createdAt (stable, like the JS sort used in
processQueue and getEstimatedTime). -/
def sortByCreated : List AnalysisJob → List AnalysisJob
  | [] => []
  | x :: xs => insertByCreated x (sortByCreated xs)

/-- Selection of the next job in processQueue: filter the queued jobs, sort
them by createdAt, take the first. -/
def nextQueued (jobs : List AnalysisJob) : Option AnalysisJob :=
  (sortByCreated (jobs.filter (fun j => j.status = .queued))).head?

/-- One worker iteration body from processQueue: mark the job processing with
startedAt, run the analyzer, and mark it completed with a result reference or
failed with the error message, with completedAt set.  The analyzer oracle
stands for analysisService.analyzeGame and the clock for Date.now. -/
def runJob (analyzer : String → DepthPreset → Except String String)
    (j : AnalysisJob) (clock : ℕ) : AnalysisJob :=
  let j1 := { j with status := .processing, startedAt := some clock }
  match analyzer j.gameId j.depth with
  | .ok resultId =>
    { j1 with status := .completed, completedAt := some (clock + 1),
              resultId := some resultId }
  | .error msg =>
    { j1 with status := .failed, completedAt := some (clock + 1),
              error := some msg }

/-- The processQueue while-loop, fuelled (each iteration removes one job from
the queued set, so fuel = number of queued jobs suffices).  Returns the final
job table together with the list of selected jobs in processing order. -/
def processLoop (analyzer : String → DepthPreset → Except String String) :
    ℕ → List AnalysisJob → ℕ → List AnalysisJob × List AnalysisJob
  | 0, jobs, _ => (jobs, [])
  | fuel + 1, jobs, clock =>
    match nextQueued jobs with
    | none => (jobs, [])
    | some j =>
      let processed := runJob analyzer j clock
      let jobs' := jobs.map (fun x => if x.gameId = j.gameId then processed else x)
      let rest := processLoop analyzer fuel jobs' (clock + 2)
      (rest.1, j :: rest.2)

/-- processQueue from queue.service.ts: run the worker loop until no queued
job remains, then clear isProcessing. -/
def processQueue (analyzer : String → DepthPreset → Except String String)
    (st : QueueState) (clock : ℕ) : QueueState × List AnalysisJob :=
  let run := processLoop analyzer
    (st.jobs.filter (fun j => j.status = .queued)).length st.jobs clock
  ({ jobs := run.1, isProcessing := false }, run.2)

/-- The per-depth rough estimates (timePerJob) from getEstimatedTime. -/
def timePerJob : DepthPreset → ℕ
  | .fast => 60
  | .balanced => 300
  | .thorough => 600

/-- getEstimatedTime from queue.service.ts: null for unknown jobs, 0 for
terminal ones, 60 for the processing one; for a queued job, its index in the
createdAt-sorted queued list times the estimate for its own depth, plus, if
the worker is processing, the estimate for the first queued job's depth. -/
def getEstimatedTime (st : QueueState) (gameId : String) : Option ℕ :=
  match queueGet st.jobs gameId with
  | none => none
  | some job =>
    if job.status = .completed ∨ job.status = .failed then
      some 0
    else if job.status = .processing then
      some 60
    else
      let queuedJobs := sortByCreated (st.jobs.filter (fun j => j.status = .queued))
      match queuedJobs.findIdx? (fun j => j.gameId = gameId) with
      | none => none
      | some position =>
        let estimatedTime := timePerJob job.depth
        let processingTime :=
          if st.isProcessing then
            timePerJob ((queuedJobs.head?.map (fun j => j.depth)).getD .fast)
          else 0
        some (processingTime + position * estimatedTime)

/-- Modelled from the spec (for comparison with getEstimatedTime): the
estimate claimed in the spec returns, for a queued job, the sum of the
per-depth estimates of every job ahead of it in FIFO (createdAt) order, plus
the fixed remaining estimate of the currently processing job if one exists. -/
def estimateSpec (st : QueueState) (gameId : String) : Option ℕ :=
  match queueGet st.jobs gameId with
  | none => none
  | some job =>
    if job.status = .completed ∨ job.status = .failed then
      some 0
    else if job.status = .processing then
      some 60
    else
      let queuedJobs := sortByCreated (st.jobs.filter (fun j => j.status = .queued))
      let ahead := queuedJobs.takeWhile (fun j => ¬ j.gameId = gameId)
      let processingRemaining :=
        if st.jobs.any (fun j => j.status = .processing) then 60 else 0
      some ((ahead.map (fun j => timePerJob j.depth)).sum + processingRemaining)

/-- The per-ply data supplied to analyzeGame by its external collaborators:
the parsed move record and derived positions (chess.js), the two engine
queries at the pre- and post-move positions (stockfish.service), and the
opening-book oracle's answer (none models a thrown lookup error, caught by
the analyzer). -/
structure PlyInput where
  fenBefore : String
  fenAfter : String
  whiteToMove : Bool
  san : String
  moveFrom : String
  moveTo : String
  movePromotion : String
  evalBefore : ℚ
  mateInBefore : Option ℤ
  bestMoveBefore : String
  bestLineBefore : String
  evalAfter : ℚ
  mateInAfter : Option ℤ
  bookResult : Option Bool
deriving DecidableEq, Repr

/-- The mutable per-player counter record created by createEmptyPlayerSummary
in game-analyzer.ts. -/
structure PlayerCounts where
  moves : ℕ
  brilliant : ℕ
  great : ℕ
  best : ℕ
  excellent : ℕ
  good : ℕ
  book : ℕ
  inaccuracies : ℕ
  mistakes : ℕ
  misses : ℕ
  blunders : ℕ
  missedMates : ℕ
  totalExpectedPointsLost : ℚ
deriving DecidableEq, Repr

/-- createEmptyPlayerSummary from game-analyzer.ts. -/
def createEmptyPlayerSummary : PlayerCounts :=
  { moves := 0, brilliant := 0, great := 0, best := 0, excellent := 0,
    good := 0, book := 0, inaccuracies := 0, mistakes := 0, misses := 0,
    blunders := 0, missedMates := 0, totalExpectedPointsLost := 0 }

/-- updateClassificationCount from game-analyzer.ts: bump the counter named
by the classification tag (every tag is in the map). -/
def updateClassificationCount (s : PlayerCounts) :
    MoveClassification → PlayerCounts
  | .brilliant => { s with brilliant := s.brilliant + 1 }
  | .great => { s with great := s.great + 1 }
  | .best => { s with best := s.best + 1 }
  | .excellent => { s with excellent := s.excellent + 1 }
  | .good => { s with good := s.good + 1 }
  | .book => { s with book := s.book + 1 }
  | .inaccuracy => { s with inaccuracies := s.inaccuracies + 1 }
  | .mistake => { s with mistakes := s.mistakes + 1 }
  | .miss => { s with misses := s.misses + 1 }
  | .blunder => { s with blunders := s.blunders + 1 }
  | .missed_mate => { s with missedMates := s.missedMates + 1 }

/-- One element of the moveAnalyses array built by analyzeGame. -/
structure MoveAnalysisRec where
  moveNumber : ℕ
  move : String
  fen : String
  evalBefore : ℚ
  evalAfter : ℚ
  winChanceBefore : ℚ
  winChanceAfter : ℚ
  expectedPointsLost : ℚ
  classification : MoveClassification
  isBook : Bool
  gamePhase : GamePhase
  bestMove : String
  bestLine : String
  isSacrifice : Bool
  isOnlyGoodMove : Bool
  isCritical : Bool
deriving DecidableEq, Repr

/-- The loop state of analyzeGame: the still-in-book flag, the three counter
records, the critical-moment counter and the records built so far. -/
structure AnalyzerState where
  stillInBook : Bool
  whiteSummary : PlayerCounts
  blackSummary : PlayerCounts
  combinedSummary : PlayerCounts
  criticalMoments : ℕ
  moveAnalyses : List MoveAnalysisRec
deriving DecidableEq, Repr

/-- The initial analyzeGame loop state. -/
def initialAnalyzerState : AnalyzerState :=
  { stillInBook := true, whiteSummary := createEmptyPlayerSummary,
    blackSummary := createEmptyPlayerSummary,
    combinedSummary := createEmptyPlayerSummary,
    criticalMoments := 0, moveAnalyses := [] }

/-- The per-ply summary mutation of game-analyzer.ts: bump the counter for
the classification, and for non-book moves also add the EPL to the running
total and bump the move count (book moves are excluded from EPL tracking). -/
def bumpSummary (classification : MoveClassification)
    (expectedPointsLost : ℚ) (s : PlayerCounts) : PlayerCounts :=
  let s1 := updateClassificationCount s classification
  if classification ≠ .book then
    { s1 with
        totalExpectedPointsLost := s1.totalExpectedPointsLost + expectedPointsLost,
        moves := s1.moves + 1 }
  else s1

/-- The body of the analyzeGame per-move loop, translated statement by
statement.  winProb is the centipawns-to-win-probability conversion the
source takes from the evaluation utilities (real-valued there; kept as a
parameter so the model stays executable), i is the 0-based ply index. -/
def stepPly (winProb : ℚ → ℚ) (i : ℕ) (x : PlyInput) (st : AnalyzerState) :
    AnalyzerState :=
  let moveNumber := i / 2 + 1
  let gamePhase := determineGamePhase moveNumber x.fenBefore
  let rawEvalBefore := x.evalBefore
  let whiteWinBefore := winProb rawEvalBefore
  let winChanceBefore := if x.whiteToMove then whiteWinBefore else 1 - whiteWinBefore
  let rawEvalAfter := x.evalAfter
  let whiteWinAfter := winProb rawEvalAfter
  let winChanceAfter := if x.whiteToMove then whiteWinAfter else 1 - whiteWinAfter
  let evalBefore := if x.whiteToMove then rawEvalBefore else -rawEvalBefore
  let evalAfter := if x.whiteToMove then rawEvalAfter else -rawEvalAfter
  let epl0 := calculateExpectedPointsLost winChanceBefore winChanceAfter
  let expectedPointsLost := adjustForMateDistance epl0 x.mateInBefore x.mateInAfter
  let isSacrifice := (detectSacrifice x.fenBefore x.fenAfter x.whiteToMove).1
  let isBestMove := decide (x.moveFrom ++ x.moveTo = x.bestMoveBefore)
  let allAlternativesWorse := isBestMove && decide (expectedPointsLost < 0.005)
  let bestMoveCreatesAdvantage :=
    decide (rawEvalBefore > 150) || decide (x.mateInBefore ≠ none)
  let playedMoveIsNeutral := decide (|rawEvalAfter| < 100)
  let moveWasntBad := decide (expectedPointsLost < 0.05)
  let missedOpportunity :=
    bestMoveCreatesAdvantage && playedMoveIsNeutral && !isBestMove && moveWasntBad
  let bookPair : Bool × Bool :=
    if st.stillInBook = true ∧ gamePhase = .opening then
      match x.bookResult with
      | some b => (b, if b = true then st.stillInBook else false)
      | none => (false, false)
    else (false, st.stillInBook)
  let isBook := bookPair.1
  let stillInBook' := bookPair.2
  let classification :=
    if isBook = true then .book
    else classifyMove
      { expectedPointsLost := expectedPointsLost,
        winChanceBefore := winChanceBefore, winChanceAfter := winChanceAfter,
        isSacrifice := isSacrifice, isBestMove := isBestMove,
        gamePhase := gamePhase, mateInBefore := x.mateInBefore,
        mateInAfter := x.mateInAfter,
        allAlternativesWorse := allAlternativesWorse,
        missedOpportunity := missedOpportunity }
  let isCritical := decide (expectedPointsLost ≥ 0.15) ||
    decide (classification = .brilliant) || decide (classification = .great)
  let whiteSummary' := if x.whiteToMove then
    bumpSummary classification expectedPointsLost st.whiteSummary else st.whiteSummary
  let blackSummary' := if x.whiteToMove then
    st.blackSummary else bumpSummary classification expectedPointsLost st.blackSummary
  let combinedSummary' := bumpSummary classification expectedPointsLost st.combinedSummary
  let criticalMoments' := if isCritical = true then st.criticalMoments + 1 else st.criticalMoments
  let record : MoveAnalysisRec :=
    { moveNumber := moveNumber, move := x.san, fen := x.fenAfter,
      evalBefore := evalBefore, evalAfter := evalAfter,
      winChanceBefore := winChanceBefore, winChanceAfter := winChanceAfter,
      expectedPointsLost := expectedPointsLost,
      classification := classification, isBook := isBook,
      gamePhase := gamePhase, bestMove := x.bestMoveBefore,
      bestLine := x.bestLineBefore, isSacrifice := isSacrifice,
      isOnlyGoodMove := allAlternativesWorse, isCritical := isCritical }
  { stillInBook := stillInBook', whiteSummary := whiteSummary',
    blackSummary := blackSummary', combinedSummary := combinedSummary',
    criticalMoments := criticalMoments',
    moveAnalyses := st.moveAnalyses ++ [record] }

/-- The analyzeGame loop over the ply list, carrying the 0-based ply index. -/
def processPlies (winProb : ℚ → ℚ) : ℕ → List PlyInput → AnalyzerState →
    AnalyzerState
  | _, [], st => st
  | i, x :: rest, st => processPlies winProb (i + 1) rest (stepPly winProb i x st)

/-- The per-player summary shape stored by analyzeGame (IPerPlayerSummary). -/
structure PerPlayerSummary where
  moves : ℕ
  brilliant : ℕ
  great : ℕ
  best : ℕ
  excellent : ℕ
  good : ℕ
  book : ℕ
  inaccuracies : ℕ
  mistakes : ℕ
  misses : ℕ
  blunders : ℕ
  missedMates : ℕ
  avgExpectedPointsLost : ℚ
deriving DecidableEq, Repr

/-- The overall summary stored by analyzeGame (IAnalysisSummary). -/
structure AnalysisSummary where
  totalMoves : ℕ
  white : PerPlayerSummary
  black : PerPlayerSummary
  brilliant : ℕ
  great : ℕ
  best : ℕ
  excellent : ℕ
  good : ℕ
  book : ℕ
  inaccuracies : ℕ
  mistakes : ℕ
  misses : ℕ
  blunders : ℕ
  missedMates : ℕ
  avgExpectedPointsLost : ℚ
  numberOfCriticalMoments : ℕ
deriving DecidableEq, Repr

/-- The analyzeGame output: the ordered move analyses and the summary. -/
structure GameAnalysisResult where
  moves : List MoveAnalysisRec
  summary : AnalysisSummary
deriving DecidableEq, Repr

/-- Build the final per-player summary from the running counters, computing
the average EPL as in game-analyzer.ts. -/
def finalizePlayerSummary (s : PlayerCounts) : PerPlayerSummary :=
  { moves := s.moves, brilliant := s.brilliant, great := s.great,
    best := s.best, excellent := s.excellent, good := s.good, book := s.book,
    inaccuracies := s.inaccuracies, mistakes := s.mistakes,
    misses := s.misses, blunders := s.blunders, missedMates := s.missedMates,
    avgExpectedPointsLost :=
      if s.moves > 0 then s.totalExpectedPointsLost / (s.moves : ℚ) else 0 }

/-- analyzeGame from game-analyzer.ts, over the already-fetched and parsed
ply list (fetching the game, parsing the PGN and deduplicating against an
existing stored analysis are external collaborators).  An empty ply list is
the source's thrown error for a game with no moves. -/
def analyzeGame (winProb : ℚ → ℚ) (plies : List PlyInput) :
    Except String GameAnalysisResult :=
  if plies = [] then
    .error "No moves found in game"
  else
    let st := processPlies winProb 0 plies initialAnalyzerState
    let avgExpectedPointsLost :=
      if st.combinedSummary.moves > 0 then
        st.combinedSummary.totalExpectedPointsLost / (st.combinedSummary.moves : ℚ)
      else 0
    .ok
      { moves := st.moveAnalyses,
        summary :=
          { totalMoves := plies.length,
            white := finalizePlayerSummary st.whiteSummary,
            black := finalizePlayerSummary st.blackSummary,
            brilliant := st.combinedSummary.brilliant,
            great := st.combinedSummary.great,
            best := st.combinedSummary.best,
            excellent := st.combinedSummary.excellent,
            good := st.combinedSummary.good,
            book := st.combinedSummary.book,
            inaccuracies := st.combinedSummary.inaccuracies,
            mistakes := st.combinedSummary.mistakes,
            misses := st.combinedSummary.misses,
            blunders := st.combinedSummary.blunders,
            missedMates := st.combinedSummary.missedMates,
            avgExpectedPointsLost := avgExpectedPointsLost,
            numberOfCriticalMoments := st.criticalMoments } }

/-- Number of jobs in the table for one gameId (the Map invariant makes this
at most 1; stated explicitly for the at-most-one theorems). -/
def countFor (jobs : List AnalysisJob) (gameId : String) : ℕ :=
  (jobs.filter (fun j => j.gameId = gameId)).length

/-- A sequence of addJob submissions (gameId, depth, creation time), applied
left to right. -/
def submitAll (st : QueueState) (reqs : List (String × DepthPreset × ℕ)) :
    QueueState :=
  reqs.foldl (fun s r => (addJob s r.1 r.2.1 r.2.2).2) st

/-- Concrete jobs and a two-job queue used to exercise getEstimatedTime:
a thorough job created first, a fast job created second, worker idle. -/
def jobG1 : AnalysisJob :=
  { gameId := "g1", depth := .thorough, status := .queued, createdAt := 0,
    startedAt := none, completedAt := none, error := none, resultId := none }

/-- The second, fast job of the two-job queue. -/
def jobG2 : AnalysisJob :=
  { gameId := "g2", depth := .fast, status := .queued, createdAt := 1,
    startedAt := none, completedAt := none, error := none, resultId := none }

/-- The two-job queue state. -/
def twoJobState : QueueState :=
  { jobs := [jobG1, jobG2], isProcessing := false }

/-- A concrete one-ply input used to exercise analyzeGame: the standard
starting position, a pawn push, mild engine scores, no mates, not book. -/
def plyExample : PlyInput :=
  { fenBefore := "rnbqkbnr/pppppppp/8/8/8/8/PPPPPPPP/RNBQKBNR w KQkq - 0 1",
    fenAfter := "rnbqkbnr/pppppppp/8/8/4P3/8/PPPP1PPP/RNBQKBNR b KQkq - 0 1",
    whiteToMove := true, san := "e4", moveFrom := "e2", moveTo := "e4",
    movePromotion := "", evalBefore := 30, mateInBefore := none,
    bestMoveBefore := "e2e4", bestLineBefore := "e2e4 e7e5",
    evalAfter := 25, mateInAfter := none, bookResult := some false }

/-! Theorems -/

/-- C1: classifyMove is total — it returns exactly one of the 11 tags for
every signal — and the cascade is order-sensitive: a defined mateInBefore
with an undefined mateInAfter yields missed_mate regardless of every other
field, and once that rule does not fire, a set missedOpportunity flag yields
miss even when the blunder threshold (EPL at least 0.20 in a non-decisive
position) is also met — never blunder. -/
theorem c1_classify_total_and_priority :
    (∀ p : ClassifyMoveParams,
      classifyMove p ∈ [MoveClassification.brilliant, .great, .best, .excellent,
        .good, .book, .inaccuracy, .mistake, .miss, .blunder, .missed_mate]) ∧
    (∀ p : ClassifyMoveParams, p.mateInBefore ≠ none → p.mateInAfter = none →
      classifyMove p = .missed_mate) ∧
    (∀ p : ClassifyMoveParams, ¬(p.mateInBefore ≠ none ∧ p.mateInAfter = none) →
      p.missedOpportunity = true → p.expectedPointsLost ≥ 0.20 →
      ¬(p.winChanceBefore ≥ 0.80 ∨ p.winChanceBefore ≤ 0.20) →
      classifyMove p = .miss ∧ MoveClassification.miss ≠ .blunder) := by
  refine ⟨?_, ?_, ?_⟩
  · intro p
    cases classifyMove p <;> simp
  · intro p h1 h2
    unfold classifyMove
    rw [if_pos ⟨h1, h2⟩]
  · intro p hmate hmo _ _
    unfold classifyMove
    rw [if_neg hmate, if_pos hmo]
    exact ⟨rfl, by simp⟩

/-- C1 witness: a concrete signal meeting the miss and blunder conditions is
classified miss. -/
theorem c1_witness :
    classifyMove
        { expectedPointsLost := 0.25, winChanceBefore := 0.5, winChanceAfter := 0.25,
          isSacrifice := false, isBestMove := false, gamePhase := .middlegame,
          mateInBefore := none, mateInAfter := none, allAlternativesWorse := false,
          missedOpportunity := true } = .miss ∧
      MoveClassification.miss ≠ .blunder :=
  c1_classify_total_and_priority.2.2 _ (by decide) (by decide) (by norm_num)
    (by norm_num)

/-- C2 counterexample: in the claimed scenario (winChanceBefore 0.05, raw EPL
0.20, no mate transition, no missed opportunity, no sacrifice or great
conditions, even with the best-move flag set) the classification is
inaccuracy, not one of best, excellent, good. -/
theorem c2_counterexample :
    classifyMove
        { expectedPointsLost := 0.20, winChanceBefore := 0.05, winChanceAfter := 0.30,
          isSacrifice := false, isBestMove := true, gamePhase := .middlegame,
          mateInBefore := none, mateInAfter := none, allAlternativesWorse := false,
          missedOpportunity := false } = .inaccuracy ∧
      MoveClassification.inaccuracy ≠ .best ∧
      MoveClassification.inaccuracy ≠ .excellent ∧
      MoveClassification.inaccuracy ≠ .good := by
  refine ⟨?_, by simp, by simp, by simp⟩
  norm_num [classifyMove, isPositionCompetitive, isPositionWinning,
    isPositionLosing, EXCELLENT_EPL, BLUNDER_EPL, MISTAKE_EPL, INACCURACY_EPL,
    BEST_EPL, GOOD_EPL, DECISIVE_WIN_PROB, DECISIVE_LOSE_PROB]

/-- C2 amended: when the pre-move win chance is decisive the effective EPL is
forced to 0, so the classification is never blunder and never mistake; and in
the specific scenario (winChanceBefore 0.05, raw EPL 0.20, no forced-mate
transition, no missed opportunity, no sacrifice, alternatives flag clear) the
move falls through every earlier rule and lands on the tier-6 fallback
inaccuracy, because raw EPL 0.20 exceeds the good ceiling 0.05. -/
theorem c2_decisive_suppression :
    (∀ p : ClassifyMoveParams,
      p.winChanceBefore ≥ 0.80 ∨ p.winChanceBefore ≤ 0.20 →
      classifyMove p ≠ .blunder ∧ classifyMove p ≠ .mistake) ∧
    (∀ (isBest : Bool) (wAfter : ℚ),
      classifyMove
          { expectedPointsLost := 0.20, winChanceBefore := 0.05,
            winChanceAfter := wAfter, isSacrifice := false, isBestMove := isBest,
            gamePhase := .middlegame, mateInBefore := none, mateInAfter := none,
            allAlternativesWorse := false, missedOpportunity := false } =
        .inaccuracy) := by
  constructor
  · intro p h
    have h' : p.winChanceBefore ≥ DECISIVE_WIN_PROB ∨
        p.winChanceBefore ≤ DECISIVE_LOSE_PROB := h
    unfold classifyMove
    dsimp only
    rw [if_pos h']
    norm_num [BLUNDER_EPL, MISTAKE_EPL, INACCURACY_EPL]
    all_goals (repeat' split)
    all_goals decide
  · intro isBest wAfter
    norm_num [classifyMove, isPositionCompetitive, isPositionWinning,
      isPositionLosing, EXCELLENT_EPL, BLUNDER_EPL, MISTAKE_EPL,
      INACCURACY_EPL, BEST_EPL, GOOD_EPL, DECISIVE_WIN_PROB,
      DECISIVE_LOSE_PROB]

/-- C2 witness: a concrete decisive signal is not classified blunder or
mistake. -/
theorem c2_witness :
    classifyMove
        { expectedPointsLost := 0.30, winChanceBefore := 0.90, winChanceAfter := 0.60,
          isSacrifice := false, isBestMove := false, gamePhase := .middlegame,
          mateInBefore := none, mateInAfter := none, allAlternativesWorse := false,
          missedOpportunity := false } ≠ .blunder ∧
      classifyMove
        { expectedPointsLost := 0.30, winChanceBefore := 0.90, winChanceAfter := 0.60,
          isSacrifice := false, isBestMove := false, gamePhase := .middlegame,
          mateInBefore := none, mateInAfter := none, allAlternativesWorse := false,
          missedOpportunity := false } ≠ .mistake :=
  c2_decisive_suppression.1 _ (by norm_num)

/-- C4 counterexample: when the opponent's forced mate persists and its
distance increases (mate-in-3 against the mover becomes mate-in-5), the code
passes the EPL through unchanged (0 here), whereas the claim's
same-side-distance-increase case demands min(epl + 0.05, 0.10) = 0.05. -/
theorem c4_counterexample :
    adjustForMateDistance 0 (some (-3)) (some (-5)) = 0 ∧
      (0 : ℚ) ≠ min (0 + 0.05) 0.1 := by
  constructor
  · norm_num [adjustForMateDistance]
    simp
  · norm_num

/-- C4 amended: adjustForMateDistance satisfies, for every epl at least 0:
lost mate floors at 0.5; newly found mate (either side) gives 0; a flip from
this side mating to the opponent mating gives 1; the small capped penalty
min(epl + 0.05, 0.10) applies only when both mate values are positive (this
side mates before and after) and the distance increased; in every other
combination — including a persisting opponent-side mate whatever its
distance change — the epl passes through unchanged. -/
theorem c4_adjust_for_mate_distance_cases :
    (∀ epl : ℚ, 0 ≤ epl → ∀ b : ℤ,
      adjustForMateDistance epl (some b) none = max epl 0.5) ∧
    (∀ epl : ℚ, 0 ≤ epl → ∀ a : ℤ,
      adjustForMateDistance epl none (some a) = 0) ∧
    (∀ epl : ℚ, 0 ≤ epl → ∀ b a : ℤ, b > 0 → a < 0 →
      adjustForMateDistance epl (some b) (some a) = 1) ∧
    (∀ epl : ℚ, 0 ≤ epl → ∀ b a : ℤ, b > 0 → a > 0 → a > b →
      adjustForMateDistance epl (some b) (some a) = min (epl + 0.05) 0.1) ∧
    (∀ epl : ℚ, 0 ≤ epl → adjustForMateDistance epl none none = epl) ∧
    (∀ epl : ℚ, 0 ≤ epl → ∀ b a : ℤ, ¬(b > 0 ∧ a < 0) →
      ¬(b > 0 ∧ a > 0 ∧ a > b) →
      adjustForMateDistance epl (some b) (some a) = epl) := by
  refine ⟨?_, ?_, ?_, ?_, ?_, ?_⟩
  · intro epl _ b
    simp [adjustForMateDistance]
  · intro epl _ a
    simp [adjustForMateDistance]
  · intro epl _ b a hb ha
    simp only [adjustForMateDistance]
    rw [if_neg (by simp), if_neg (by simp)]
    rw [if_pos ⟨hb, ha⟩]
  · intro epl _ b a hb ha hab
    simp only [adjustForMateDistance]
    rw [if_neg (by simp), if_neg (by simp)]
    rw [if_neg (by omega), if_pos ⟨hb, ha, hab⟩]
  · intro epl _
    simp [adjustForMateDistance]
  · intro epl _ b a h1 h2
    simp only [adjustForMateDistance]
    rw [if_neg (by simp), if_neg (by simp)]
    rw [if_neg h1, if_neg h2]

/-- C4 witness: the amended cases evaluated at concrete inputs. -/
theorem c4_witness :
    adjustForMateDistance 0.3 (some 4) none = max 0.3 0.5 ∧
      adjustForMateDistance 0.2 (some 2) (some (-1)) = 1 ∧
      adjustForMateDistance 0.02 (some 2) (some 5) = min (0.02 + 0.05) 0.1 ∧
      adjustForMateDistance 0.07 (some (-3)) (some (-5)) = 0.07 :=
  ⟨c4_adjust_for_mate_distance_cases.1 _ (by norm_num) _,
   c4_adjust_for_mate_distance_cases.2.2.1 _ (by norm_num) _ _ (by norm_num)
     (by norm_num),
   c4_adjust_for_mate_distance_cases.2.2.2.1 _ (by norm_num) _ _ (by norm_num)
     (by norm_num) (by norm_num),
   c4_adjust_for_mate_distance_cases.2.2.2.2.2 _ (by norm_num) _ _
     (by norm_num) (by norm_num)⟩

/-- C6: detectSacrifice reports a sacrifice exactly when the mover's material
dropped by at least 2 points, and a sacrificing move with EPL 0.01 from a
competitive, non-winning position (win chance 0.55) in the middlegame, with
no lost forced mate and no missed opportunity, is classified brilliant. -/
theorem c6_sacrifice_brilliant :
    (∀ (fenBefore fenAfter : String) (playerWhite : Bool),
      (detectSacrifice fenBefore fenAfter playerWhite).1 = true ↔
        (calculateMaterial fenBefore playerWhite : ℤ) -
          calculateMaterial fenAfter playerWhite ≥ 2) ∧
    (∀ (mateB mateA : Option ℤ) (wAfter : ℚ) (isBest allAlt : Bool),
      ¬(mateB ≠ none ∧ mateA = none) →
      classifyMove
          { expectedPointsLost := 0.01, winChanceBefore := 0.55, winChanceAfter := wAfter,
            isSacrifice := true, isBestMove := isBest, gamePhase := .middlegame,
            mateInBefore := mateB, mateInAfter := mateA, allAlternativesWorse := allAlt,
            missedOpportunity := false } = .brilliant) := by
  constructor
  · intro fenBefore fenAfter playerWhite
    simp [detectSacrifice]
  · intro mateB mateA wAfter isBest allAlt hmate
    unfold classifyMove
    rw [if_neg hmate]
    rw [if_neg (by simp)]
    rw [if_pos ?_]
    refine ⟨rfl, by norm_num [EXCELLENT_EPL], ?_, ?_, Or.inl (by simp)⟩
    · exact ⟨by norm_num, by norm_num⟩
    · norm_num [isPositionWinning]

/-- C6 witness: a queen-for-nothing loss is a sacrifice, and the brilliant
scenario evaluated with no mates present. -/
theorem c6_witness :
    ((detectSacrifice "rnbqkbnr/pppppppp/8/8/8/8/PPPPPPPP/RNBQKBNR w - - 0 1"
        "rnb1kbnr/pppppppp/8/8/8/8/PPPPPPPP/RNBQKBNR w - - 0 1" false).1 = true ↔
      (calculateMaterial "rnbqkbnr/pppppppp/8/8/8/8/PPPPPPPP/RNBQKBNR w - - 0 1"
          false : ℤ) -
        calculateMaterial "rnb1kbnr/pppppppp/8/8/8/8/PPPPPPPP/RNBQKBNR w - - 0 1"
          false ≥ 2) ∧
    classifyMove
        { expectedPointsLost := 0.01, winChanceBefore := 0.55, winChanceAfter := 0.60,
          isSacrifice := true, isBestMove := false, gamePhase := .middlegame,
          mateInBefore := none, mateInAfter := none, allAlternativesWorse := false,
          missedOpportunity := false } = .brilliant :=
  ⟨c6_sacrifice_brilliant.1 _ _ _,
   c6_sacrifice_brilliant.2 none none 0.60 false false (by decide)⟩

/-- C10: when no forced mate existed before the move and the position after
it has a forced mate for the opponent (negative mate distance), the
found-a-mate branch fires without checking the mate's sign and the adjusted
EPL is 0. -/
theorem c10_blunder_into_opponent_mate_rewarded :
    ∀ (epl : ℚ) (m : ℤ), m < 0 →
      adjustForMateDistance epl none (some m) = 0 := by
  intro epl m _
  simp [adjustForMateDistance]

/-- C10 witness: a concrete instance with an opponent mate appearing. -/
theorem c10_witness : adjustForMateDistance 0.3 none (some (-2)) = 0 :=
  c10_blunder_into_opponent_mate_rewarded 0.3 (-2) (by decide)

/-- The logistic body of centipawnsToWinPercent equals 100 / (1 + exp(-k cp)). -/
lemma winPercent_eq_of_mem (cp : ℝ) (h1 : ¬ cp > 10000) (h2 : ¬ cp < -10000) :
    centipawnsToWinPercent cp =
      100 / (1 + Real.exp (-LICHESS_WIN_RATE_COEFFICIENT * cp)) := by
  unfold centipawnsToWinPercent
  rw [if_neg h1, if_neg h2]
  have he : 0 < Real.exp (-LICHESS_WIN_RATE_COEFFICIENT * cp) := Real.exp_pos _
  field_simp
  ring

/-- Bounds for centipawnsToWinPercent: always between 0 and 100. -/
lemma winPercent_bounds (cp : ℝ) :
    0 ≤ centipawnsToWinPercent cp ∧ centipawnsToWinPercent cp ≤ 100 := by
  by_cases h1 : cp > 10000
  · unfold centipawnsToWinPercent
    rw [if_pos h1]
    norm_num
  · by_cases h2 : cp < -10000
    · unfold centipawnsToWinPercent
      rw [if_neg h1, if_pos h2]
      norm_num
    · rw [winPercent_eq_of_mem cp h1 h2]
      have he : 0 < Real.exp (-LICHESS_WIN_RATE_COEFFICIENT * cp) := Real.exp_pos _
      have hd : 0 < 1 + Real.exp (-LICHESS_WIN_RATE_COEFFICIENT * cp) := by linarith
      constructor
      · positivity
      · rw [div_le_iff₀ hd]
        nlinarith

/-- Strict monotonicity of centipawnsToWinPercent inside the sentinel band. -/
lemma winPercent_strictMono (cp1 cp2 : ℝ) (ha : -10000 ≤ cp1) (hlt : cp1 < cp2)
    (hb : cp2 ≤ 10000) :
    centipawnsToWinPercent cp1 < centipawnsToWinPercent cp2 := by
  have hk : (0 : ℝ) < LICHESS_WIN_RATE_COEFFICIENT := by
    norm_num [LICHESS_WIN_RATE_COEFFICIENT]
  have h11 : ¬ cp1 > 10000 := by linarith
  have h12 : ¬ cp1 < -10000 := by linarith
  have h21 : ¬ cp2 > 10000 := by linarith
  have h22 : ¬ cp2 < -10000 := by linarith
  rw [winPercent_eq_of_mem cp1 h11 h12, winPercent_eq_of_mem cp2 h21 h22]
  have hexp : Real.exp (-LICHESS_WIN_RATE_COEFFICIENT * cp2) <
      Real.exp (-LICHESS_WIN_RATE_COEFFICIENT * cp1) := by
    apply Real.exp_lt_exp.mpr
    nlinarith
  have hd2 : 0 < 1 + Real.exp (-LICHESS_WIN_RATE_COEFFICIENT * cp2) := by
    have := Real.exp_pos (-LICHESS_WIN_RATE_COEFFICIENT * cp2)
    linarith
  exact div_lt_div_of_pos_left (by norm_num) hd2 (by linarith)

/-- C5: centipawnsToWinProbability always lies in the unit interval, equals
0.5 at 0 centipawns, is strictly increasing on the non-saturated band
-10000 to 10000, and maps the mate sentinels (beyond 10000 in magnitude)
exactly to 1 and 0. -/
theorem c5_win_probability_properties :
    (∀ cp : ℝ, 0 ≤ centipawnsToWinProbability cp ∧
      centipawnsToWinProbability cp ≤ 1) ∧
    centipawnsToWinProbability 0 = 0.5 ∧
    (∀ cp1 cp2 : ℝ, -10000 ≤ cp1 → cp1 < cp2 → cp2 ≤ 10000 →
      centipawnsToWinProbability cp1 < centipawnsToWinProbability cp2) ∧
    (∀ cp : ℝ, cp > 10000 → centipawnsToWinProbability cp = 1) ∧
    (∀ cp : ℝ, cp < -10000 → centipawnsToWinProbability cp = 0) := by
  refine ⟨?_, ?_, ?_, ?_, ?_⟩
  · intro cp
    have h := winPercent_bounds cp
    unfold centipawnsToWinProbability
    constructor
    · exact div_nonneg h.1 (by norm_num)
    · rw [div_le_iff₀ (by norm_num : (0:ℝ) < 100)]
      linarith
  · unfold centipawnsToWinProbability
    rw [winPercent_eq_of_mem 0 (by norm_num) (by norm_num)]
    norm_num [Real.exp_zero]
  · intro cp1 cp2 ha hlt hb
    unfold centipawnsToWinProbability
    have := winPercent_strictMono cp1 cp2 ha hlt hb
    linarith
  · intro cp h
    unfold centipawnsToWinProbability centipawnsToWinPercent
    rw [if_pos h]
    norm_num
  · intro cp h
    unfold centipawnsToWinProbability centipawnsToWinPercent
    rw [if_neg (by linarith), if_pos h]
    norm_num

/-- C5 witness: the sentinel values and a strict increase, evaluated at
concrete centipawn scores. -/
theorem c5_witness :
    centipawnsToWinProbability 20000 = 1 ∧
    centipawnsToWinProbability (-20000) = 0 ∧
    centipawnsToWinProbability 0 < centipawnsToWinProbability 100 :=
  ⟨c5_win_probability_properties.2.2.2.1 20000 (by norm_num),
   c5_win_probability_properties.2.2.2.2 (-20000) (by norm_num),
   c5_win_probability_properties.2.2.1 0 100 (by norm_num) (by norm_num)
     (by norm_num)⟩

/-- A gameId absent from the table under find? has zero entries. -/
lemma countFor_eq_zero_of_get_none (jobs : List AnalysisJob) (g : String)
    (h : queueGet jobs g = none) : countFor jobs g = 0 := by
  unfold queueGet at h
  unfold countFor
  rw [List.length_eq_zero, List.filter_eq_nil_iff]
  intro a ha
  simpa using List.find?_eq_none.mp h a ha

/-- A gameId found in the table has at least one entry. -/
lemma countFor_pos_of_get_some (jobs : List AnalysisJob) (g : String)
    (j0 : AnalysisJob) (h : queueGet jobs g = some j0) :
    1 ≤ countFor jobs g := by
  unfold queueGet at h
  have hp := List.find?_some h
  have hmem0 := List.mem_of_find?_eq_some h
  have hmem : j0 ∈ jobs.filter (fun j => j.gameId = g) :=
    List.mem_filter.mpr ⟨hmem0, by simpa using hp⟩
  exact List.length_pos.mpr (List.ne_nil_of_mem hmem)

/-- Appending one job changes countFor by 1 exactly for its own gameId. -/
lemma countFor_append (jobs : List AnalysisJob) (x : AnalysisJob) (g : String) :
    countFor (jobs ++ [x]) g =
      countFor jobs g + (if x.gameId = g then 1 else 0) := by
  unfold countFor
  rw [List.filter_append, List.length_append]
  congr 1
  by_cases hx : x.gameId = g <;> simp [hx]

/-- One addJob step keeps at most one entry per gameId and establishes
exactly one entry for ids that were present or just submitted. -/
lemma addJob_countFor_step (st : QueueState) (g' : String) (d : DepthPreset)
    (t : ℕ) (g : String) (h : countFor st.jobs g ≤ 1) :
    countFor (addJob st g' d t).2.jobs g ≤ 1 ∧
      ((g' = g ∨ countFor st.jobs g = 1) →
        countFor (addJob st g' d t).2.jobs g = 1) := by
  cases hfind : queueGet st.jobs g' with
  | some j0 =>
    simp only [addJob, hfind]
    refine ⟨h, ?_⟩
    rintro (rfl | h1)
    · have := countFor_pos_of_get_some st.jobs g' j0 hfind
      omega
    · exact h1
  | none =>
    have hany : st.jobs.any (fun j => j.gameId = g') = false := by
      rw [List.any_eq_false]
      intro x hx
      simpa using List.find?_eq_none.mp hfind x hx
    simp only [addJob, hfind, queueSet, hany, Bool.false_eq_true, if_false]
    rw [countFor_append]
    by_cases hg : g' = g
    · subst hg
      have h0 : countFor st.jobs g' = 0 :=
        countFor_eq_zero_of_get_none st.jobs g' hfind
      simp [h0]
    · constructor
      · simpa [hg] using h
      · rintro (hgg | h1)
        · exact absurd hgg hg
        · simpa [hg] using h1

/-- C7 counterexample: with a completed (terminal) job for g1 in the table,
addJob for g1 returns that completed job and leaves the table unmodified —
it does not create a fresh queued job as the claim requires. -/
theorem c7_counterexample :
    (addJob
        { jobs := [{ gameId := "g1", depth := .fast, status := .completed,
                     createdAt := 0, startedAt := some 1, completedAt := some 2,
                     error := none, resultId := some "r" }],
          isProcessing := false } "g1" .fast 5).1.status = .completed ∧
      (addJob
        { jobs := [{ gameId := "g1", depth := .fast, status := .completed,
                     createdAt := 0, startedAt := some 1, completedAt := some 2,
                     error := none, resultId := some "r" }],
          isProcessing := false } "g1" .fast 5).2 =
        { jobs := [{ gameId := "g1", depth := .fast, status := .completed,
                     createdAt := 0, startedAt := some 1, completedAt := some 2,
                     error := none, resultId := some "r" }],
          isProcessing := false } := by
  decide

/-- C7 amended: addJob returns any existing job for the gameId unchanged —
terminal or not — leaving the table unmodified; only when no job at all
exists for the id does it create and store a fresh job in queued state
(appended to the table); and starting from a table with at most one job for
an id, after any sequence of submissions exactly one job exists for that id
as soon as it was present or submitted at least once. -/
theorem c7_submit_idempotent_at_most_one :
    (∀ (st : QueueState) (g : String) (d : DepthPreset) (t : ℕ)
        (j0 : AnalysisJob),
      queueGet st.jobs g = some j0 → addJob st g d t = (j0, st)) ∧
    (∀ (st : QueueState) (g : String) (d : DepthPreset) (t : ℕ),
      queueGet st.jobs g = none →
        (addJob st g d t).1.status = .queued ∧ (addJob st g d t).1.gameId = g ∧
          (addJob st g d t).2.jobs = st.jobs ++ [(addJob st g d t).1]) ∧
    (∀ (st : QueueState) (reqs : List (String × DepthPreset × ℕ)) (g : String),
      countFor st.jobs g ≤ 1 →
        countFor (submitAll st reqs).jobs g ≤ 1 ∧
          ((∃ r ∈ reqs, r.1 = g) ∨ countFor st.jobs g = 1 →
            countFor (submitAll st reqs).jobs g = 1)) := by
  refine ⟨?_, ?_, ?_⟩
  · intro st g d t j0 h
    simp [addJob, h]
  · intro st g d t h
    have hany : st.jobs.any (fun j => j.gameId = g) = false := by
      rw [List.any_eq_false]
      intro x hx
      simpa using List.find?_eq_none.mp h x hx
    simp [addJob, h, queueSet, hany]
  · intro st reqs
    induction reqs generalizing st with
    | nil =>
      intro g h
      refine ⟨h, ?_⟩
      rintro (⟨r, hr, _⟩ | h1)
      · exact absurd hr (List.not_mem_nil r)
      · exact h1
    | cons r rs ih =>
      intro g h
      have hstep := addJob_countFor_step st r.1 r.2.1 r.2.2 g h
      have hsub : submitAll st (r :: rs) =
          submitAll (addJob st r.1 r.2.1 r.2.2).2 rs := rfl
      rw [hsub]
      have hrec := ih (addJob st r.1 r.2.1 r.2.2).2 g hstep.1
      refine ⟨hrec.1, ?_⟩
      rintro (⟨q, hq, hqg⟩ | h1)
      · rcases List.mem_cons.mp hq with rfl | hqrs
        · exact hrec.2 (Or.inr (hstep.2 (Or.inl hqg)))
        · exact hrec.2 (Or.inl ⟨q, hqrs, hqg⟩)
      · exact hrec.2 (Or.inr (hstep.2 (Or.inr h1)))

/-- C7 witness: a queued job is returned unchanged by a repeated submit, and
a two-submit sequence for a fresh id leaves exactly one job for it. -/
theorem c7_witness :
    addJob
        { jobs := [{ gameId := "g1", depth := .fast, status := .queued,
                     createdAt := 0, startedAt := none, completedAt := none,
                     error := none, resultId := none }],
          isProcessing := false } "g1" .balanced 9 =
      ({ gameId := "g1", depth := .fast, status := .queued, createdAt := 0,
         startedAt := none, completedAt := none, error := none,
         resultId := none },
       { jobs := [{ gameId := "g1", depth := .fast, status := .queued,
                    createdAt := 0, startedAt := none, completedAt := none,
                    error := none, resultId := none }],
         isProcessing := false }) ∧
      countFor (submitAll { jobs := [], isProcessing := false }
          [("g2", .fast, 0), ("g2", .thorough, 3)]).jobs "g2" = 1 :=
  ⟨c7_submit_idempotent_at_most_one.1 _ "g1" .balanced 9 _ (by decide),
   (c7_submit_idempotent_at_most_one.2.2 _ [("g2", .fast, 0), ("g2", .thorough, 3)]
      "g2" (by decide)).2 (Or.inl ⟨("g2", .fast, 0), by decide, by decide⟩)⟩

/-- Inserting into the stable sort permutes with consing. -/
lemma insertByCreated_perm (j : AnalysisJob) (l : List AnalysisJob) :
    (insertByCreated j l).Perm (j :: l) := by
  induction l with
  | nil => rfl
  | cons x xs ih =>
    unfold insertByCreated
    split
    · exact (ih.cons x).trans (List.Perm.swap j x xs)
    · rfl

/-- The stable sort is a permutation of its input. -/
lemma sortByCreated_perm (l : List AnalysisJob) :
    (sortByCreated l).Perm l := by
  induction l with
  | nil => rfl
  | cons x xs ih =>
    exact (insertByCreated_perm x (sortByCreated xs)).trans (ih.cons x)

/-- Inserting into a createdAt-sorted list keeps it sorted. -/
lemma insertByCreated_pairwise (j : AnalysisJob) (l : List AnalysisJob)
    (h : l.Pairwise (fun a b => a.createdAt ≤ b.createdAt)) :
    (insertByCreated j l).Pairwise (fun a b => a.createdAt ≤ b.createdAt) := by
  induction l with
  | nil => simp [insertByCreated]
  | cons x xs ih =>
    rw [List.pairwise_cons] at h
    unfold insertByCreated
    split
    · rename_i hle
      rw [List.pairwise_cons]
      refine ⟨?_, ih h.2⟩
      intro y hy
      have hmem := (insertByCreated_perm j xs).mem_iff.mp hy
      rcases List.mem_cons.mp hmem with rfl | hyx
      · exact hle
      · exact h.1 y hyx
    · rename_i hgt
      push_neg at hgt
      rw [List.pairwise_cons]
      refine ⟨?_, List.pairwise_cons.mpr h⟩
      intro y hy
      rcases List.mem_cons.mp hy with rfl | hyx
      · exact le_of_lt hgt
      · exact le_trans (le_of_lt hgt) (h.1 y hyx)

/-- The stable sort is sorted by createdAt. -/
lemma sortByCreated_pairwise (l : List AnalysisJob) :
    (sortByCreated l).Pairwise (fun a b => a.createdAt ≤ b.createdAt) := by
  induction l with
  | nil => simp [sortByCreated]
  | cons x xs ih => exact insertByCreated_pairwise x (sortByCreated xs) ih

/-- The head of the sorted queued list has minimal createdAt. -/
lemma sorted_head_min (x : AnalysisJob) (xs : List AnalysisJob)
    (h : (x :: xs).Pairwise (fun a b => a.createdAt ≤ b.createdAt)) :
    ∀ y ∈ x :: xs, x.createdAt ≤ y.createdAt := by
  intro y hy
  rcases List.mem_cons.mp hy with rfl | hyx
  · exact le_refl _
  · exact (List.pairwise_cons.mp h).1 y hyx

/-- In a sorted list with pairwise-distinct createdAt and pairwise-distinct
gameIds, the index found for a member's gameId is the number of entries with
a strictly smaller createdAt. -/
lemma findIdx_sorted_eq_count (l : List AnalysisJob) (job : AnalysisJob)
    (hsort : l.Pairwise (fun a b => a.createdAt ≤ b.createdAt))
    (hdist : l.Pairwise (fun a b => a.createdAt ≠ b.createdAt))
    (huniq : l.Pairwise (fun a b => a.gameId ≠ b.gameId))
    (hmem : job ∈ l) :
    l.findIdx? (fun j => j.gameId = job.gameId) =
      some (l.filter (fun j => j.createdAt < job.createdAt)).length := by
  induction l with
  | nil => exact absurd hmem (List.not_mem_nil job)
  | cons x xs ih =>
    rw [List.pairwise_cons] at hsort hdist huniq
    by_cases hx : x.gameId = job.gameId
    · have hxj : x = job := by
        rcases List.mem_cons.mp hmem with rfl | hjxs
        · rfl
        · exact absurd hx (huniq.1 job hjxs)
      subst hxj
      rw [List.findIdx?_cons]
      rw [if_pos (by simp)]
      have hcount : (x :: xs).filter (fun j => j.createdAt < x.createdAt) = [] := by
        rw [List.filter_eq_nil_iff]
        intro a ha
        rcases List.mem_cons.mp ha with rfl | haxs
        · simp
        · have := hsort.1 a haxs
          simp
          omega
      rw [hcount]
      simp
    · have hjxs : job ∈ xs := by
        rcases List.mem_cons.mp hmem with rfl | hjxs
        · exact absurd rfl hx
        · exact hjxs
      rw [List.findIdx?_cons, if_neg (by simpa using hx), List.findIdx?_succ]
      rw [ih hsort.2 hdist.2 huniq.2 hjxs]
      have hxle : x.createdAt ≤ job.createdAt := hsort.1 job hjxs
      have hxne : x.createdAt ≠ job.createdAt := hdist.1 job hjxs
      have hxlt : x.createdAt < job.createdAt := by omega
      rw [List.filter_cons, if_pos (by simpa using hxlt)]
      simp

/-- C9 counterexample: two queued jobs, a thorough one (estimate 600) ahead
of a fast one (estimate 60), no job processing.  The claim demands the sum of
the estimates of the jobs ahead (600) for the second job; the code returns
its queue position times its own per-depth estimate (1 * 60 = 60). -/
theorem c9_counterexample :
    getEstimatedTime twoJobState "g2" = some 60 ∧
      estimateSpec twoJobState "g2" = some 600 ∧
      (some 60 : Option ℕ) ≠ some 600 := by
  decide

/-- C9 amended: getEstimatedTime returns 0 for completed and failed jobs and
the fixed constant 60 for the processing one; for a queued job (with unique
gameIds, and distinct creation times among queued jobs) it returns the
number of queued jobs created strictly earlier times the per-depth estimate
of the queued job ITSELF, plus — when the worker flag is set — the per-depth
estimate of the earliest-created queued job, not a remaining estimate of the
processing job. -/
theorem c9_estimate_shape :
    (∀ (st : QueueState) (g : String) (job : AnalysisJob),
      queueGet st.jobs g = some job →
      job.status = .completed ∨ job.status = .failed →
      getEstimatedTime st g = some 0) ∧
    (∀ (st : QueueState) (g : String) (job : AnalysisJob),
      queueGet st.jobs g = some job → job.status = .processing →
      getEstimatedTime st g = some 60) ∧
    (∀ (st : QueueState) (g : String) (job : AnalysisJob),
      queueGet st.jobs g = some job → job.status = .queued →
      st.jobs.Pairwise (fun a b => a.gameId ≠ b.gameId) →
      (st.jobs.filter (fun j => j.status = .queued)).Pairwise
        (fun a b => a.createdAt ≠ b.createdAt) →
      ∃ j0, j0 ∈ st.jobs ∧ j0.status = .queued ∧
        (∀ x ∈ st.jobs, x.status = .queued → j0.createdAt ≤ x.createdAt) ∧
        getEstimatedTime st g =
          some ((if st.isProcessing then timePerJob j0.depth else 0) +
            ((st.jobs.filter (fun j => j.status = .queued)).filter
                (fun j => j.createdAt < job.createdAt)).length *
              timePerJob job.depth)) := by
  refine ⟨?_, ?_, ?_⟩
  · intro st g job hget hterm
    simp only [getEstimatedTime, hget]
    rw [if_pos hterm]
  · intro st g job hget hp
    simp only [getEstimatedTime, hget]
    rw [if_neg (by simp [hp]), if_pos hp]
  · intro st g job hget hq huniq hdist
    have hg : job.gameId = g := by
      have := List.find?_some hget
      simpa using this
    subst hg
    have hjobmem : job ∈ st.jobs := List.mem_of_find?_eq_some hget
    have hjobQ : job ∈ st.jobs.filter (fun j => j.status = .queued) :=
      List.mem_filter.mpr ⟨hjobmem, by simp [hq]⟩
    have hperm := sortByCreated_perm (st.jobs.filter (fun j => j.status = .queued))
    have hsort := sortByCreated_pairwise (st.jobs.filter (fun j => j.status = .queued))
    have hjobS : job ∈ sortByCreated (st.jobs.filter (fun j => j.status = .queued)) :=
      hperm.mem_iff.mpr hjobQ
    have hdistS := (hperm.pairwise_iff (fun hab => Ne.symm hab)).mpr hdist
    have huniqQ : (st.jobs.filter (fun j => j.status = .queued)).Pairwise
        (fun a b => a.gameId ≠ b.gameId) :=
      huniq.sublist (List.filter_sublist _)
    have huniqS := (hperm.pairwise_iff (fun hab => Ne.symm hab)).mpr huniqQ
    have hfind := findIdx_sorted_eq_count _ job hsort hdistS huniqS hjobS
    have hlen : ((sortByCreated (st.jobs.filter (fun j => j.status = .queued))).filter
        (fun j => j.createdAt < job.createdAt)).length =
        ((st.jobs.filter (fun j => j.status = .queued)).filter
          (fun j => j.createdAt < job.createdAt)).length :=
      (hperm.filter _).length_eq
    cases hS : sortByCreated (st.jobs.filter (fun j => j.status = .queued)) with
    | nil =>
      rw [hS] at hjobS
      exact absurd hjobS (List.not_mem_nil job)
    | cons j0 tl =>
      have hj0Q : j0 ∈ st.jobs.filter (fun j => j.status = .queued) := by
        apply hperm.mem_iff.mp
        rw [hS]
        exact List.mem_cons_self j0 tl
      have hj0mem : j0 ∈ st.jobs := (List.mem_filter.mp hj0Q).1
      have hj0q : j0.status = .queued := by
        have := (List.mem_filter.mp hj0Q).2
        simpa using this
      have hmin : ∀ x ∈ st.jobs, x.status = .queued → j0.createdAt ≤ x.createdAt := by
        intro x hx hxq
        have hxQ : x ∈ st.jobs.filter (fun j => j.status = .queued) :=
          List.mem_filter.mpr ⟨hx, by simp [hxq]⟩
        have hxS : x ∈ sortByCreated (st.jobs.filter (fun j => j.status = .queued)) :=
          hperm.mem_iff.mpr hxQ
        rw [hS] at hxS
        exact sorted_head_min j0 tl (hS ▸ hsort) x hxS
      refine ⟨j0, hj0mem, hj0q, hmin, ?_⟩
      simp only [getEstimatedTime, hget]
      rw [if_neg (by simp [hq]), if_neg (by simp [hq])]
      rw [hS] at hfind hlen
      simp only [hfind, hS, List.head?_cons, Option.map_some, Option.map_some',
        Option.getD_some, hlen]

/-- C9 witness: the amended shape evaluated on the counterexample state for
the second queued job, and the terminal case on a completed job. -/
theorem c9_witness :
    ∃ j0, j0 ∈ twoJobState.jobs ∧ j0.status = .queued ∧
      (∀ x ∈ twoJobState.jobs, x.status = .queued →
        j0.createdAt ≤ x.createdAt) ∧
      getEstimatedTime twoJobState "g2" =
        some ((if twoJobState.isProcessing then timePerJob j0.depth else 0) +
          ((twoJobState.jobs.filter (fun j => j.status = .queued)).filter
              (fun j => j.createdAt < jobG2.createdAt)).length *
            timePerJob jobG2.depth) :=
  c9_estimate_shape.2.2 twoJobState "g2" jobG2 (by decide) (by decide)
    (by decide) (by decide)

/-- updateClassificationCount never touches the moves counter. -/
lemma updateClassificationCount_moves (s : PlayerCounts)
    (c : MoveClassification) :
    (updateClassificationCount s c).moves = s.moves := by
  cases c <;> rfl

/-- updateClassificationCount bumps book exactly for the book tag. -/
lemma updateClassificationCount_book (s : PlayerCounts)
    (c : MoveClassification) :
    (updateClassificationCount s c).book =
      s.book + (if c = .book then 1 else 0) := by
  cases c <;> simp [updateClassificationCount]

/-- Every ply adds exactly one to moves + book of the mutated summary: book
plies bump book, all others bump moves. -/
lemma bumpSummary_moves_add_book (c : MoveClassification) (e : ℚ)
    (s : PlayerCounts) :
    (bumpSummary c e s).moves + (bumpSummary c e s).book =
      s.moves + s.book + 1 := by
  by_cases hc : c = .book
  · subst hc
    simp [bumpSummary, updateClassificationCount]
    omega
  · have h1 := updateClassificationCount_moves s c
    have h2 := updateClassificationCount_book s c
    simp only [bumpSummary, ne_eq, hc, not_false_iff, if_true]
    simp [h1, h2, hc]
    omega

/-- Whoever moved, the two per-player summaries together gain exactly one
moves-or-book tick per ply. -/
lemma mover_bump_sum (c : MoveClassification) (e : ℚ) (w : Bool)
    (ws bs : PlayerCounts) :
    (if w then bumpSummary c e ws else ws).moves +
      (if w then bs else bumpSummary c e bs).moves +
      (if w then bumpSummary c e ws else ws).book +
      (if w then bs else bumpSummary c e bs).book =
      ws.moves + bs.moves + ws.book + bs.book + 1 := by
  cases w
  · simp only [Bool.false_eq_true, if_false]
    have := bumpSummary_moves_add_book c e bs
    omega
  · simp only [if_true]
    have := bumpSummary_moves_add_book c e ws
    omega

/-- One analyzer step appends a record carrying the ply's move number, SAN
text and resulting position. -/
lemma stepPly_record (winProb : ℚ → ℚ) (i : ℕ) (x : PlyInput)
    (st : AnalyzerState) :
    ∃ rec : MoveAnalysisRec,
      (stepPly winProb i x st).moveAnalyses = st.moveAnalyses ++ [rec] ∧
        rec.moveNumber = i / 2 + 1 ∧ rec.move = x.san ∧
        rec.fen = x.fenAfter :=
  ⟨_, rfl, rfl, rfl, rfl⟩

/-- One analyzer step adds exactly one to the joint moves + book total. -/
lemma stepPly_sum (winProb : ℚ → ℚ) (i : ℕ) (x : PlyInput)
    (st : AnalyzerState) :
    (stepPly winProb i x st).whiteSummary.moves +
      (stepPly winProb i x st).blackSummary.moves +
      (stepPly winProb i x st).whiteSummary.book +
      (stepPly winProb i x st).blackSummary.book =
      st.whiteSummary.moves + st.blackSummary.moves +
        st.whiteSummary.book + st.blackSummary.book + 1 := by
  simp only [stepPly]
  exact mover_bump_sum _ _ _ _ _

/-- Loop invariant of processPlies: one record per ply is appended in ply
order (SAN, resulting FEN and move numbers follow the input plies), and the
joint moves + book total grows by the number of plies. -/
lemma processPlies_shape (winProb : ℚ → ℚ) :
    ∀ (l : List PlyInput) (i : ℕ) (st : AnalyzerState),
      ∃ recs : List MoveAnalysisRec,
        (processPlies winProb i l st).moveAnalyses = st.moveAnalyses ++ recs ∧
        recs.map (fun rec => rec.move) = l.map (fun x => x.san) ∧
        recs.map (fun rec => rec.fen) = l.map (fun x => x.fenAfter) ∧
        recs.map (fun rec => rec.moveNumber) =
          (List.range l.length).map (fun k => (i + k) / 2 + 1) ∧
        ((processPlies winProb i l st).whiteSummary.moves +
          (processPlies winProb i l st).blackSummary.moves +
          (processPlies winProb i l st).whiteSummary.book +
          (processPlies winProb i l st).blackSummary.book =
          st.whiteSummary.moves + st.blackSummary.moves +
            st.whiteSummary.book + st.blackSummary.book + l.length) := by
  intro l
  induction l with
  | nil =>
    intro i st
    exact ⟨[], by simp [processPlies], rfl, rfl, by simp,
      by simp [processPlies]⟩
  | cons x xs ih =>
    intro i st
    obtain ⟨rec0, hstep, hmn, hmv, hfen⟩ := stepPly_record winProb i x st
    obtain ⟨recs, hre, hsan, hfens, hnums, hsum⟩ :=
      ih (i + 1) (stepPly winProb i x st)
    have hs := stepPly_sum winProb i x st
    have hpp : processPlies winProb i (x :: xs) st =
        processPlies winProb (i + 1) xs (stepPly winProb i x st) := rfl
    refine ⟨rec0 :: recs, ?_, ?_, ?_, ?_, ?_⟩
    · rw [hpp, hre, hstep]
      simp
    · simp [hmv, hsan]
    · simp [hfen, hfens]
    · rw [List.length_cons, List.range_succ_eq_map, List.map_cons,
        List.map_cons, List.map_map, hmn, hnums]
      refine congrArg₂ _ (by simp) ?_
      refine congrArg₂ _ ?_ rfl
      funext k
      simp only [Function.comp]
      omega
    · rw [hpp, List.length_cons]
      omega

/-- C3: for every nonempty parsed ply list, analyzeGame succeeds with exactly
one MoveAnalysis record per ply, in ply order (the records carry the plies'
SAN texts and resulting positions in input order, and move number k/2+1 at
ply index k), and the two per-player moves counters plus the two per-player
book counters sum to the ply count. -/
theorem c3_analyzer_records_and_counts :
    ∀ (winProb : ℚ → ℚ) (plies : List PlyInput), plies ≠ [] →
      ∃ r : GameAnalysisResult, analyzeGame winProb plies = .ok r ∧
        r.moves.length = plies.length ∧
        r.moves.map (fun rec => rec.move) = plies.map (fun x => x.san) ∧
        r.moves.map (fun rec => rec.fen) = plies.map (fun x => x.fenAfter) ∧
        r.moves.map (fun rec => rec.moveNumber) =
          (List.range plies.length).map (fun k => k / 2 + 1) ∧
        r.summary.white.moves + r.summary.black.moves +
          r.summary.white.book + r.summary.black.book = plies.length := by
  intro winProb plies h
  obtain ⟨recs, hre, hsan, hfens, hnums, hsum⟩ :=
    processPlies_shape winProb plies 0 initialAnalyzerState
  have hre' : (processPlies winProb 0 plies initialAnalyzerState).moveAnalyses
      = recs := by
    simpa [initialAnalyzerState] using hre
  have hlen : recs.length = plies.length := by
    have := congrArg List.length hsan
    simpa using this
  unfold analyzeGame
  rw [if_neg h]
  refine ⟨_, rfl, ?_, ?_, ?_, ?_, ?_⟩
  · simp [hre', hlen]
  · simpa [hre'] using hsan
  · simpa [hre'] using hfens
  · rw [show (fun k : ℕ => k / 2 + 1) = (fun k : ℕ => (0 + k) / 2 + 1) by
      funext k; simp]
    simpa [hre'] using hnums
  · have h0 : initialAnalyzerState.whiteSummary.moves +
        initialAnalyzerState.blackSummary.moves +
        initialAnalyzerState.whiteSummary.book +
        initialAnalyzerState.blackSummary.book = 0 := rfl
    simpa [finalizePlayerSummary, initialAnalyzerState,
      createEmptyPlayerSummary] using hsum

/-- C3 witness: the one-ply example analyzes to exactly one record carrying
the ply's SAN, and a moves + book total of one. -/
theorem c3_witness :
    ∃ r : GameAnalysisResult, analyzeGame (fun _ => 0) [plyExample] = .ok r ∧
      r.moves.length = 1 ∧
      r.moves.map (fun rec => rec.move) = ["e4"] ∧
      r.summary.white.moves + r.summary.black.moves +
        r.summary.white.book + r.summary.black.book = 1 := by
  obtain ⟨r, h1, h2, h3, _, _, h6⟩ :=
    c3_analyzer_records_and_counts (fun _ => 0) [plyExample] (by simp)
  refine ⟨r, h1, by simpa using h2, ?_, by simpa using h6⟩
  rw [h3]
  rfl

/-- runJob keeps the job's gameId. -/
lemma runJob_gameId (analyzer : String → DepthPreset → Except String String)
    (j : AnalysisJob) (t : ℕ) : (runJob analyzer j t).gameId = j.gameId := by
  unfold runJob
  cases analyzer j.gameId j.depth <;> rfl

/-- runJob always ends in a terminal (non-queued) status. -/
lemma runJob_status_ne_queued
    (analyzer : String → DepthPreset → Except String String)
    (j : AnalysisJob) (t : ℕ) : (runJob analyzer j t).status ≠ .queued := by
  unfold runJob
  cases analyzer j.gameId j.depth <;> simp

/-- runJob always sets completedAt. -/
lemma runJob_completedAt
    (analyzer : String → DepthPreset → Except String String)
    (j : AnalysisJob) (t : ℕ) :
    (runJob analyzer j t).completedAt = some (t + 1) := by
  unfold runJob
  cases analyzer j.gameId j.depth <;> rfl

/-- On analyzer success the job completes with the result reference. -/
lemma runJob_ok (analyzer : String → DepthPreset → Except String String)
    (j : AnalysisJob) (t : ℕ) (rid : String)
    (h : analyzer j.gameId j.depth = .ok rid) :
    (runJob analyzer j t).status = .completed ∧
      (runJob analyzer j t).resultId = some rid := by
  unfold runJob
  rw [h]
  exact ⟨rfl, rfl⟩

/-- On a raised analyzer error the job fails with the error message. -/
lemma runJob_error (analyzer : String → DepthPreset → Except String String)
    (j : AnalysisJob) (t : ℕ) (msg : String)
    (h : analyzer j.gameId j.depth = .error msg) :
    (runJob analyzer j t).status = .failed ∧
      (runJob analyzer j t).error = some msg := by
  unfold runJob
  rw [h]
  exact ⟨rfl, rfl⟩

/-- In a table with pairwise-distinct gameIds, distinct members have
distinct gameIds. -/
lemma pairwise_ne_of_mem (l : List AnalysisJob)
    (h : l.Pairwise (fun a b => a.gameId ≠ b.gameId)) :
    ∀ a ∈ l, ∀ b ∈ l, a ≠ b → a.gameId ≠ b.gameId := by
  induction l with
  | nil =>
    intro a ha
    exact absurd ha (List.not_mem_nil a)
  | cons y ys ih =>
    rw [List.pairwise_cons] at h
    intro a ha b hb hab
    rcases List.mem_cons.mp ha with rfl | ha' <;>
      rcases List.mem_cons.mp hb with rfl | hb'
    · exact absurd rfl hab
    · exact h.1 b hb'
    · exact Ne.symm (h.1 a ha')
    · exact ih h.2 a ha' b hb' hab

/-- Mapping a function that fixes every member is the identity. -/
lemma map_update_id (l : List AnalysisJob) (f : AnalysisJob → AnalysisJob)
    (h : ∀ x ∈ l, f x = x) : l.map f = l := by
  induction l with
  | nil => rfl
  | cons y ys ih =>
    rw [List.map_cons, h y (List.mem_cons_self y ys),
      ih (fun x hx => h x (List.mem_cons_of_mem y hx))]

/-- The in-place update keyed by gameId keeps gameIds pairwise distinct. -/
lemma update_wf (jobs : List AnalysisJob) (j0 j' : AnalysisJob)
    (hg : j'.gameId = j0.gameId)
    (hwf : jobs.Pairwise (fun a b => a.gameId ≠ b.gameId)) :
    (jobs.map (fun x => if x.gameId = j0.gameId then j' else x)).Pairwise
      (fun a b => a.gameId ≠ b.gameId) := by
  rw [List.pairwise_map]
  have hpt : ∀ x : AnalysisJob,
      ((if x.gameId = j0.gameId then j' else x)).gameId = x.gameId := by
    intro x
    by_cases hx : x.gameId = j0.gameId
    · rw [if_pos hx, hg, hx]
    · rw [if_neg hx]
  exact hwf.imp (fun hab => by
    intro hcon
    exact hab (by rwa [hpt _, hpt _] at hcon))

/-- Updating the selected queued job to a terminal state removes exactly it
from the queued sublist. -/
lemma filter_update_erase (jobs : List AnalysisJob) (j0 j' : AnalysisJob)
    (hwf : jobs.Pairwise (fun a b => a.gameId ≠ b.gameId))
    (hmem : j0 ∈ jobs) (hq : j0.status = .queued)
    (hg : j'.gameId = j0.gameId) (hnq : j'.status ≠ .queued) :
    (jobs.map (fun x => if x.gameId = j0.gameId then j' else x)).filter
        (fun j => j.status = .queued) =
      (jobs.filter (fun j => j.status = .queued)).erase j0 := by
  induction jobs with
  | nil => exact absurd hmem (List.not_mem_nil j0)
  | cons y ys ih =>
    rw [List.pairwise_cons] at hwf
    by_cases hy : y.gameId = j0.gameId
    · have hyj0 : y = j0 := by
        rcases List.mem_cons.mp hmem with rfl | hj0ys
        · rfl
        · exact absurd hy (hwf.1 j0 hj0ys)
      subst hyj0
      have hmap : ys.map (fun x => if x.gameId = y.gameId then j' else x) = ys := by
        apply map_update_id
        intro x hx
        rw [if_neg (fun hxx => (hwf.1 x hx) hxx.symm)]
      rw [List.map_cons, if_pos rfl, hmap]
      rw [List.filter_cons, List.filter_cons, if_neg (by simp [hnq]),
        if_pos (by simp [hq]), List.erase_cons_head]
    · have hj0ys : j0 ∈ ys := by
        rcases List.mem_cons.mp hmem with rfl | hj0ys
        · exact absurd rfl hy
        · exact hj0ys
      have hyne : ¬ (y == j0) = true := by
        simp only [beq_iff_eq]
        intro he
        exact hy (he ▸ rfl)
      rw [List.map_cons, if_neg hy, List.filter_cons, List.filter_cons]
      by_cases hyq : y.status = .queued
      · rw [if_pos (by simp [hyq]), if_pos (by simp [hyq]),
          List.erase_cons_tail hyne, ih hwf.2 hj0ys]
      · rw [if_neg (by simp [hyq]), if_neg (by simp [hyq]), ih hwf.2 hj0ys]

/-- If nextQueued finds no job, no queued job exists. -/
lemma nextQueued_none (jobs : List AnalysisJob)
    (h : nextQueued jobs = none) :
    jobs.filter (fun j => j.status = .queued) = [] := by
  unfold nextQueued at h
  have hperm := sortByCreated_perm (jobs.filter (fun j => j.status = .queued))
  cases hS : sortByCreated (jobs.filter (fun j => j.status = .queued)) with
  | nil =>
    rw [hS] at hperm
    exact hperm.symm.eq_nil
  | cons z tl =>
    rw [hS] at h
    exact absurd h (by simp)

/-- The job nextQueued selects is a queued member with minimal createdAt. -/
lemma nextQueued_spec (jobs : List AnalysisJob) (j0 : AnalysisJob)
    (h : nextQueued jobs = some j0) :
    j0 ∈ jobs ∧ j0.status = .queued ∧
      ∀ x ∈ jobs, x.status = .queued → j0.createdAt ≤ x.createdAt := by
  unfold nextQueued at h
  have hperm := sortByCreated_perm (jobs.filter (fun j => j.status = .queued))
  have hsort := sortByCreated_pairwise (jobs.filter (fun j => j.status = .queued))
  cases hS : sortByCreated (jobs.filter (fun j => j.status = .queued)) with
  | nil =>
    rw [hS] at h
    exact absurd h (by simp)
  | cons z tl =>
    rw [hS] at h hperm hsort
    have hz : z = j0 := by simpa using h
    subst hz
    have hzF : z ∈ jobs.filter (fun j => j.status = .queued) :=
      hperm.mem_iff.mp (List.mem_cons_self z tl)
    have hzmem : z ∈ jobs := (List.mem_filter.mp hzF).1
    have hzq : z.status = .queued := by
      have := (List.mem_filter.mp hzF).2
      simpa using this
    refine ⟨hzmem, hzq, ?_⟩
    intro x hx hxq
    have hxF : x ∈ jobs.filter (fun j => j.status = .queued) :=
      List.mem_filter.mpr ⟨hx, by simp [hxq]⟩
    have hxS : x ∈ z :: tl := hperm.mem_iff.mpr hxF
    exact sorted_head_min z tl hsort x hxS

/-- Master invariant of the worker loop: with enough fuel, non-queued jobs
survive untouched, every queued job reappears as its runJob outcome, and the
processing log is exactly the queued jobs in createdAt order. -/
lemma processLoop_master
    (analyzer : String → DepthPreset → Except String String) :
    ∀ (fuel : ℕ) (jobs : List AnalysisJob) (clock : ℕ),
      jobs.Pairwise (fun a b => a.gameId ≠ b.gameId) →
      (jobs.filter (fun j => j.status = .queued)).length ≤ fuel →
      (∀ j ∈ jobs, j.status ≠ .queued →
        j ∈ (processLoop analyzer fuel jobs clock).1) ∧
      (∀ j ∈ jobs, j.status = .queued →
        ∃ t, runJob analyzer j t ∈ (processLoop analyzer fuel jobs clock).1) ∧
      (processLoop analyzer fuel jobs clock).2.Perm
        (jobs.filter (fun j => j.status = .queued)) ∧
      (processLoop analyzer fuel jobs clock).2.Pairwise
        (fun a b => a.createdAt ≤ b.createdAt) := by
  intro fuel
  induction fuel with
  | zero =>
    intro jobs clock hwf hle
    have hnil : jobs.filter (fun j => j.status = .queued) = [] :=
      List.length_eq_zero.mp (Nat.le_zero.mp hle)
    refine ⟨?_, ?_, ?_, ?_⟩
    · intro j hj _
      simpa [processLoop] using hj
    · intro j hj hq
      exfalso
      have : j ∈ jobs.filter (fun j => j.status = .queued) :=
        List.mem_filter.mpr ⟨hj, by simp [hq]⟩
      rw [hnil] at this
      exact absurd this (List.not_mem_nil j)
    · simp [processLoop, hnil]
    · simp [processLoop]
  | succ n ih =>
    intro jobs clock hwf hle
    cases hnq : nextQueued jobs with
    | none =>
      have hnil := nextQueued_none jobs hnq
      refine ⟨?_, ?_, ?_, ?_⟩
      · intro j hj _
        simpa [processLoop, hnq] using hj
      · intro j hj hq
        exfalso
        have : j ∈ jobs.filter (fun j => j.status = .queued) :=
          List.mem_filter.mpr ⟨hj, by simp [hq]⟩
        rw [hnil] at this
        exact absurd this (List.not_mem_nil j)
      · simp [processLoop, hnq, hnil]
      · simp [processLoop, hnq]
    | some j0 =>
      obtain ⟨hj0mem, hj0q, hj0min⟩ := nextQueued_spec jobs j0 hnq
      have hgid : (runJob analyzer j0 clock).gameId = j0.gameId :=
        runJob_gameId analyzer j0 clock
      have hrnq : (runJob analyzer j0 clock).status ≠ .queued :=
        runJob_status_ne_queued analyzer j0 clock
      have hwf' := update_wf jobs j0 (runJob analyzer j0 clock) hgid hwf
      have hfq := filter_update_erase jobs j0 (runJob analyzer j0 clock)
        hwf hj0mem hj0q hgid hrnq
      have hj0F : j0 ∈ jobs.filter (fun j => j.status = .queued) :=
        List.mem_filter.mpr ⟨hj0mem, by simp [hj0q]⟩
      have hle' : ((jobs.map (fun x =>
          if x.gameId = j0.gameId then runJob analyzer j0 clock else x)).filter
            (fun j => j.status = .queued)).length ≤ n := by
        rw [hfq, List.length_erase_of_mem hj0F]
        omega
      obtain ⟨ih1, ih2, ih3, ih4⟩ := ih (jobs.map (fun x =>
        if x.gameId = j0.gameId then runJob analyzer j0 clock else x))
        (clock + 2) hwf' hle'
      have hppL : processLoop analyzer (n + 1) jobs clock =
          ((processLoop analyzer n (jobs.map (fun x =>
            if x.gameId = j0.gameId then runJob analyzer j0 clock else x))
            (clock + 2)).1,
           j0 :: (processLoop analyzer n (jobs.map (fun x =>
            if x.gameId = j0.gameId then runJob analyzer j0 clock else x))
            (clock + 2)).2) := by
        simp [processLoop, hnq]
      have hmem' : ∀ j ∈ jobs, j.gameId ≠ j0.gameId → j ∈ jobs.map (fun x =>
          if x.gameId = j0.gameId then runJob analyzer j0 clock else x) := by
        intro j hj hne
        have hx := List.mem_map_of_mem (fun x =>
          if x.gameId = j0.gameId then runJob analyzer j0 clock else x) hj
        simpa [hne] using hx
      refine ⟨?_, ?_, ?_, ?_⟩
      · intro j hj hjnq
        rw [hppL]
        have hne : j ≠ j0 := fun he => hjnq (he ▸ hj0q)
        have hgne : j.gameId ≠ j0.gameId :=
          pairwise_ne_of_mem jobs hwf j hj j0 hj0mem hne
        exact ih1 j (hmem' j hj hgne) hjnq
      · intro j hj hq
        rw [hppL]
        by_cases hjj : j = j0
        · subst hjj
          refine ⟨clock, ?_⟩
          have hjin : runJob analyzer j clock ∈ jobs.map (fun x =>
              if x.gameId = j.gameId then runJob analyzer j clock else x) := by
            have hx := List.mem_map_of_mem (fun x =>
              if x.gameId = j.gameId then runJob analyzer j clock else x) hj
            simpa using hx
          exact ih1 (runJob analyzer j clock) hjin
            (runJob_status_ne_queued analyzer j clock)
        · have hgne : j.gameId ≠ j0.gameId :=
            pairwise_ne_of_mem jobs hwf j hj j0 hj0mem hjj
          exact ih2 j (hmem' j hj hgne) hq
      · rw [hppL]
        have h1 : (j0 :: (processLoop analyzer n (jobs.map (fun x =>
            if x.gameId = j0.gameId then runJob analyzer j0 clock else x))
            (clock + 2)).2).Perm
            (j0 :: (jobs.filter (fun j => j.status = .queued)).erase j0) :=
          (ih3.trans (by rw [hfq])).cons j0
        exact h1.trans (List.perm_cons_erase hj0F).symm
      · rw [hppL]
        rw [List.pairwise_cons]
        refine ⟨?_, ih4⟩
        intro y hy
        have hyF : y ∈ (jobs.filter (fun j => j.status = .queued)).erase j0 := by
          have := ih3.mem_iff.mp hy
          rwa [hfq] at this
        have hyF' : y ∈ jobs.filter (fun j => j.status = .queued) :=
          List.mem_of_mem_erase hyF
        have hymem : y ∈ jobs := (List.mem_filter.mp hyF').1
        have hyq : y.status = .queued := by
          have := (List.mem_filter.mp hyF').2
          simpa using this
        exact hj0min y hymem hyq

/-- C8: with unique gameIds, the worker loop started by processQueue
processes every queued job in createdAt (FIFO) order and isolates failures:
each queued job reappears in the final table with its own analyzer outcome —
completed with a result reference on success, failed with the error message
on a raised error, completedAt set either way — independently of any other
job's failure, and the processing log is exactly the queued jobs sorted by
creation time. -/
theorem c8_worker_failure_isolation :
    ∀ (analyzer : String → DepthPreset → Except String String)
      (st : QueueState) (clock : ℕ),
      st.jobs.Pairwise (fun a b => a.gameId ≠ b.gameId) →
      (∀ j ∈ st.jobs, j.status = .queued →
        ∃ j', j' ∈ (processQueue analyzer st clock).1.jobs ∧
          j'.gameId = j.gameId ∧ j'.completedAt.isSome = true ∧
          (∀ rid, analyzer j.gameId j.depth = .ok rid →
            j'.status = .completed ∧ j'.resultId = some rid) ∧
          (∀ msg, analyzer j.gameId j.depth = .error msg →
            j'.status = .failed ∧ j'.error = some msg)) ∧
      (processQueue analyzer st clock).2.Perm
        (st.jobs.filter (fun j => j.status = .queued)) ∧
      (processQueue analyzer st clock).2.Pairwise
        (fun a b => a.createdAt ≤ b.createdAt) := by
  intro analyzer st clock hwf
  obtain ⟨h1, h2, h3, h4⟩ := processLoop_master analyzer
    (st.jobs.filter (fun j => j.status = .queued)).length st.jobs clock hwf
    (le_refl _)
  refine ⟨?_, h3, h4⟩
  intro j hj hq
  obtain ⟨t, hmem⟩ := h2 j hj hq
  refine ⟨runJob analyzer j t, hmem, runJob_gameId analyzer j t, ?_, ?_, ?_⟩
  · rw [runJob_completedAt]
    rfl
  · intro rid hok
    exact runJob_ok analyzer j t rid hok
  · intro msg herr
    exact runJob_error analyzer j t msg herr

/-- C8 witness: two queued jobs where the first fails and the second
succeeds; the theorem yields the outcome of the first (failed with its
message, completedAt set) and a sorted log covering both. -/
theorem c8_witness :
    (∃ j', j' ∈ (processQueue
        (fun g _ => if g = "g1" then .error "boom" else .ok "res")
        twoJobState 10).1.jobs ∧
      j'.gameId = jobG1.gameId ∧ j'.completedAt.isSome = true ∧
      (∀ rid, (fun (g : String) (_ : DepthPreset) =>
          if g = "g1" then (.error "boom" : Except String String)
          else .ok "res") jobG1.gameId jobG1.depth = .ok rid →
        j'.status = .completed ∧ j'.resultId = some rid) ∧
      (∀ msg, (fun (g : String) (_ : DepthPreset) =>
          if g = "g1" then (.error "boom" : Except String String)
          else .ok "res") jobG1.gameId jobG1.depth = .error msg →
        j'.status = .failed ∧ j'.error = some msg)) ∧
    (processQueue (fun g _ => if g = "g1" then .error "boom" else .ok "res")
        twoJobState 10).2.Pairwise (fun a b => a.createdAt ≤ b.createdAt) :=
  ⟨(c8_worker_failure_isolation
      (fun g _ => if g = "g1" then .error "boom" else .ok "res")
      twoJobState 10 (by decide)).1 jobG1 (by decide) (by decide),
   (c8_worker_failure_isolation
      (fun g _ => if g = "g1" then .error "boom" else .ok "res")
      twoJobState 10 (by decide)).2.2⟩

end ChessCoach
